import Mathlib

/-!
Shallow embedding of the seda-polymarket-feed oracle program
(`src/execution_phase.rs`, `src/tally_phase.rs`, `test_abi.rs`).

Bytes are modelled as `Nat` values below 256, strings as lists of Unicode
scalar values (`Nat`), `u64` values as `Nat` with explicit `% 2^64` where
the Rust arithmetic can wrap.  Fallible steps return `Option`.  The host
boundary (`Process::success` / `Process::error` / an `Err` return bubbled
up through `?`) is the `HostOutcome` type.
-/

namespace SedaFeed

/-- Outcome of one phase at the host boundary: `Process::success(bytes)`,
`Process::error(bytes)`, or the Rust function returning `Err(_)` via `?`
(a normal error-result return handed to the SDK harness, not a panic). -/
inductive HostOutcome where
  | success : List Nat → HostOutcome
  | error : List Nat → HostOutcome
  | errReturn : HostOutcome
deriving DecidableEq, Repr

/-- ASCII bytes of a Rust string literal (`"..."​.as_bytes()`); all the
messages in the source are plain ASCII, where UTF-8 bytes coincide with
code points. -/
def asciiBytes (s : String) : List Nat := s.data.map Char.toNat

/-- UTF-8 continuation byte test (`0x80..=0xBF`). -/
def isCont (b : Nat) : Bool := 0x80 ≤ b && b ≤ 0xBF

/-- `String::from_utf8` on a byte list: decodes to the list of Unicode
scalar values, or `none` when the bytes are not valid UTF-8 (invalid
leading bytes, truncated sequences, overlong forms, surrogates, and
values above `0x10FFFF` are all rejected, as in Rust). -/
def decodeUtf8 : List Nat → Option (List Nat)
  | [] => some []
  | b :: bs =>
    if b ≤ 0x7F then (decodeUtf8 bs).map (b :: ·)
    else
      match bs with
      | [] => none
      | b1 :: bs1 =>
        if 0xC2 ≤ b && b ≤ 0xDF then
          if isCont b1 then
            (decodeUtf8 bs1).map (((b - 0xC0) * 0x40 + (b1 - 0x80)) :: ·)
          else none
        else
          match bs1 with
          | [] => none
          | b2 :: bs2 =>
            if 0xE0 ≤ b && b ≤ 0xEF then
              if (if b = 0xE0 then 0xA0 ≤ b1 && b1 ≤ 0xBF
                  else if b = 0xED then 0x80 ≤ b1 && b1 ≤ 0x9F
                  else isCont b1) && isCont b2 then
                (decodeUtf8 bs2).map
                  (((b - 0xE0) * 0x1000 + (b1 - 0x80) * 0x40 + (b2 - 0x80)) :: ·)
              else none
            else
              match bs2 with
              | [] => none
              | b3 :: bs3 =>
                if 0xF0 ≤ b && b ≤ 0xF4 then
                  if (if b = 0xF0 then 0x90 ≤ b1 && b1 ≤ 0xBF
                      else if b = 0xF4 then 0x80 ≤ b1 && b1 ≤ 0x8F
                      else isCont b1) && isCont b2 && isCont b3 then
                    (decodeUtf8 bs3).map
                      (((b - 0xF0) * 0x40000 + (b1 - 0x80) * 0x1000 +
                        (b2 - 0x80) * 0x40 + (b3 - 0x80)) :: ·)
                  else none
                else none

/-- Rust `char::is_whitespace` (the Unicode White_Space code points). -/
def isWhitespace (c : Nat) : Bool :=
  c == 0x09 || c == 0x0A || c == 0x0B || c == 0x0C || c == 0x0D || c == 0x20 ||
  c == 0x85 || c == 0xA0 || c == 0x1680 ||
  c == 0x2000 || c == 0x2001 || c == 0x2002 || c == 0x2003 || c == 0x2004 ||
  c == 0x2005 || c == 0x2006 || c == 0x2007 || c == 0x2008 || c == 0x2009 ||
  c == 0x200A || c == 0x2028 || c == 0x2029 || c == 0x202F || c == 0x205F ||
  c == 0x3000

/-- `str::trim_start`. -/
def trimStart (s : List Nat) : List Nat := s.dropWhile isWhitespace

/-- `str::trim_end`. -/
def trimEnd (s : List Nat) : List Nat := (s.reverse.dropWhile isWhitespace).reverse

/-- `str::trim`: strip leading and trailing whitespace characters. -/
def trim (s : List Nat) : List Nat := trimEnd (trimStart s)

/-- ASCII decimal digit test. -/
def isDigit (c : Nat) : Bool := 0x30 ≤ c && c ≤ 0x39

/-- Numeric value of a string of ASCII decimal digits. -/
def digitsVal (ds : List Nat) : Nat := ds.foldl (fun a c => a * 10 + (c - 0x30)) 0

/-- `str::parse::<u64>()`: an optional leading `+`, then a non-empty run of
ASCII decimal digits whose value fits in a `u64`; anything else is an
error (`none`).  Rust rejects a lone sign, embedded signs, whitespace,
non-digits, and values above `u64::MAX`. -/
def parseU64 (s : List Nat) : Option Nat :=
  let t := match s with
    | c :: rest => if c = 0x2B then rest else s
    | [] => []
  if t.isEmpty then none
  else if t.all isDigit then
    if digitsVal t < 2 ^ 64 then some (digitsVal t) else none
  else none

/-- One loop iteration of `tally_phase` on a reveal body: UTF-8 decode
(`String::from_utf8`), `trim`, `parse::<u64>()`; `none` means the reveal
is logged and skipped (`continue`). -/
def parseRevealPrice (body : List Nat) : Option Nat :=
  (decodeUtf8 body).bind fun s => parseU64 (trim s)

/-- The `prices` vector accumulated by the reveal loop of `tally_phase`:
valid reveals in order, invalid ones skipped. -/
def tallyPrices (reveals : List (List Nat)) : List Nat :=
  reveals.filterMap parseRevealPrice

/-- Wrapping `u64` addition: Rust `+` on `u64` in a release build wraps
modulo `2^64` (overflow checks off). -/
def u64add (a b : Nat) : Nat := (a + b) % 2 ^ 64

/-- `nums.sort()`: Rust's stable ascending sort.  On naturals every
ascending sort of the same multiset is the same list, so insertion sort
is an exact model. -/
def sortAsc (nums : List Nat) : List Nat := nums.insertionSort (· ≤ ·)

/-- `median` from `tally_phase.rs`: sort ascending, take the middle
element for odd lengths, and the truncated average of the two middle
elements for even lengths.  Callers only pass non-empty vectors, so the
`getD` defaults are never hit (`nums[middle - 1]` would panic in Rust on
an empty vector). -/
def median (nums : List Nat) : Nat :=
  let s := sortAsc nums
  let middle := s.length / 2
  if s.length % 2 = 0 then u64add (s.getD (middle - 1) 0) (s.getD middle 0) / 2
  else s.getD middle 0

/-- `"No consensus among revealed results".as_bytes()`. -/
def noConsensusMsg : List Nat := asciiBytes "No consensus among revealed results"

/-- `final_price.to_string().as_bytes()`: decimal text of a number. -/
def toDecimalBytes (n : Nat) : List Nat := (Nat.toDigits 10 n).map Char.toNat

/-- `tally_phase` (scalar flow), as a function of the reveal bodies
returned by `get_reveals()`: filter the reveals, report
"no consensus" when no valid price remains, otherwise report the median
as decimal text. -/
def tally_phase (reveals : List (List Nat)) : HostOutcome :=
  let prices := tallyPrices reveals
  if prices.isEmpty then HostOutcome.error noConsensusMsg
  else HostOutcome.success (toDecimalBytes (median prices))

/-- Big-endian byte string of fixed width `k`: `beBytes k n` is the low
`k` bytes of `n`, most significant first (`u64::to_be_bytes` is
`beBytes 8`; a `len() as u64` cast truncates exactly like taking the low
8 bytes). -/
def beBytes : Nat → Nat → List Nat
  | 0, _ => []
  | k + 1, n => beBytes k (n / 256) ++ [n % 256]

/-- A 32-byte ABI word: the value right-aligned, big-endian, in 32
bytes.  This is the layout the spec prescribes for each word. -/
def abiWord (v : Nat) : List Nat := beBytes 32 v

/-- The ABI encoder from `test_abi.rs`: 31 zero bytes and `0x20` (offset
word), 24 zero bytes and the length as 8 big-endian bytes, then for each
price 24 zero bytes and its 8 big-endian bytes. -/
def abi_encode (prices : List Nat) : List Nat :=
  (List.replicate 31 0 ++ [0x20]) ++
  (List.replicate 24 0 ++ beBytes 8 prices.length) ++
  (prices.map (fun p => List.replicate 24 0 ++ beBytes 8 p)).flatten

/-- Environment of one `execution_phase` run: the data-request input bytes
(`Process::get_inputs()`) and the HTTP response (`status`, body bytes) the
fetch produced. -/
structure ExecEnv where
  inputs : List Nat
  httpStatus : Nat
  httpBody : List Nat

/-- Modelled from the spec: the SDK response's `is_ok()` is not in this
repository; §6 of the spec fixes its contract — "Any non-2xx status ... is a
fetch failure". -/
def responseOk (status : Nat) : Bool := 200 ≤ status && status ≤ 299

/-- `"Error while fetching series information".as_bytes()`. -/
def fetchErrMsg : List Nat := asciiBytes "Error while fetching series information"

/-- `"Failed to parse mid from execution program".as_bytes()`. -/
def parseMidErrMsg : List Nat := asciiBytes "Failed to parse mid from execution program"

/-- Rust `f64::round`: round half away from zero, here applied to an exact
rational. -/
def rustRound (q : ℚ) : Int := if 0 ≤ q then ⌊q + 1 / 2⌋ else ⌈q - 1 / 2⌉

/-- Rust float-to-integer `as u64` cast: saturating — negative values go to
0, values above `u64::MAX` go to `u64::MAX`. -/
def satU64 (x : Int) : Nat := if x < 0 then 0 else min x.toNat (2 ^ 64 - 1)

/-- `(mid_val * 1_000_000.0).round() as u64`, with the parsed f64 value
idealized as an exact rational.  The sign and clamping behaviour of the
cast, which is all the invariant claims use, does not depend on that
idealization. -/
def scaleMid (v : ℚ) : Nat := satU64 (rustRound (v * 1000000))

/-- `execution_phase` from `execution_phase.rs`, as a function of the run
environment.  The two text parsers supplied by external crates are passed
in as parameters: `jsonParseMid` is `serde_json::from_slice::<PolymarketMarketResponse>`
(returning the `mid` string on success) and `parseF64` is
`str::parse::<f64>` (returning the parsed value, idealized as a rational).
Each `?` propagation of an `Err` is `HostOutcome.errReturn`. -/
def execution_phase (jsonParseMid : List Nat → Option (List Nat))
    (parseF64 : List Nat → Option ℚ) (env : ExecEnv) : HostOutcome :=
  match decodeUtf8 env.inputs with
  | none => HostOutcome.errReturn
  | some _tokenId =>
    if !responseOk env.httpStatus then
      match decodeUtf8 env.httpBody with
      | none => HostOutcome.errReturn
      | some _body => HostOutcome.error fetchErrMsg
    else
      match jsonParseMid env.httpBody with
      | none => HostOutcome.errReturn
      | some midStr =>
        match parseF64 midStr with
        | none => HostOutcome.error parseMidErrMsg
        | some v => HostOutcome.success (toDecimalBytes (scaleMid v))

/-! ### Helper lemmas -/

theorem sortAsc_eq {l s : List ℕ} (hperm : s.Perm l) (hsort : s.Sorted (· ≤ ·)) :
    sortAsc l = s :=
  List.eq_of_perm_of_sorted ((List.perm_insertionSort _ l).trans hperm.symm)
    (List.sorted_insertionSort _ l) hsort

theorem median_even {l s : List ℕ} (hperm : s.Perm l) (hsort : s.Sorted (· ≤ ·))
    (hlen : l.length % 2 = 0) :
    median l = u64add (s.getD (l.length / 2 - 1) 0) (s.getD (l.length / 2) 0) / 2 := by
  have hs := sortAsc_eq hperm hsort
  have hl : s.length = l.length := hperm.length_eq
  simp [median, hs, hl, hlen]

theorem median_odd {l s : List ℕ} (hperm : s.Perm l) (hsort : s.Sorted (· ≤ ·))
    (hlen : l.length % 2 = 1) :
    median l = s.getD (l.length / 2) 0 := by
  have hs := sortAsc_eq hperm hsort
  have hl : s.length = l.length := hperm.length_eq
  have hne : ¬ (l.length % 2 = 0) := by omega
  simp [median, hs, hl, hne]

/-! ### Claims about the median (C1, C7, C9) -/

/-- C1 counterexample: on `[2^63, 2^63]` the two middle sorted elements are
both `2^63`; their floor average is `2^63`, but the wrapping `u64` addition
makes the code emit `0`, so the claimed equation fails at this input. -/
theorem median_sort_rule_cex : median [2 ^ 63, 2 ^ 63] ≠ (2 ^ 63 + 2 ^ 63) / 2 := by
  decide

/-- C1 (amended): for every non-empty list of valid `u64` prices, the
median is the single middle element of the ascending sort for odd lengths,
and, provided the two middle elements' sum does not exceed `u64::MAX`, the
integer floor-division average of the two middle elements for even lengths
(e.g. the median of `[1, 2]` is `1`, not `2`). -/
theorem median_sort_rule (l s : List ℕ) (_hne : l ≠ [])
    (_hbound : ∀ x ∈ l, x < 2 ^ 64) (hperm : s.Perm l) (hsort : s.Sorted (· ≤ ·)) :
    (l.length % 2 = 1 → median l = s.getD (l.length / 2) 0) ∧
    (l.length % 2 = 0 →
      s.getD (l.length / 2 - 1) 0 + s.getD (l.length / 2) 0 < 2 ^ 64 →
      median l = (s.getD (l.length / 2 - 1) 0 + s.getD (l.length / 2) 0) / 2) := by
  constructor
  · intro h
    exact median_odd hperm hsort h
  · intro h hsum
    rw [median_even hperm hsort h, u64add, Nat.mod_eq_of_lt hsum]

/-- C1 witness: the even-length tie-break on `[1, 2]` gives `1`. -/
theorem median_sort_rule_witness : median [1, 2] = 1 := by
  have h := (median_sort_rule [1, 2] [1, 2] (by decide) (by decide) (by decide)
    (by decide)).2 (by decide) (by decide)
  exact h.trans (by decide)

/-- C7 counterexample: on `[2^63 + 1, 2^63 + 1]` the `u64` addition of the
two middle sorted elements wraps modulo `2^64` (it returns `2`, not
`2^64 + 2`), and the emitted median is `1` instead of `2^63 + 1`: the code
does silently wrap. -/
theorem median_no_overflow_cex :
    u64add (2 ^ 63 + 1) (2 ^ 63 + 1) ≠ (2 ^ 63 + 1) + (2 ^ 63 + 1) ∧
    median [2 ^ 63 + 1, 2 ^ 63 + 1] = 1 := by
  constructor
  · decide
  · decide

/-- C7 (amended): for every even-length list of valid `u64` prices whose
two middle sorted elements sum to less than `2^64`, the `u64` addition
equals the exact mathematical sum, so no overflow affects the emitted
median; when the sum reaches `2^64` the addition wraps. -/
theorem median_no_overflow (l s : List ℕ) (hlen : l.length % 2 = 0) (_hne : l ≠ [])
    (hperm : s.Perm l) (hsort : s.Sorted (· ≤ ·))
    (hsum : s.getD (l.length / 2 - 1) 0 + s.getD (l.length / 2) 0 < 2 ^ 64) :
    u64add (s.getD (l.length / 2 - 1) 0) (s.getD (l.length / 2) 0) =
      s.getD (l.length / 2 - 1) 0 + s.getD (l.length / 2) 0 ∧
    median l = (s.getD (l.length / 2 - 1) 0 + s.getD (l.length / 2) 0) / 2 := by
  constructor
  · rw [u64add]
    exact Nat.mod_eq_of_lt hsum
  · rw [median_even hperm hsort hlen, u64add, Nat.mod_eq_of_lt hsum]

/-- C7 witness: on `[2, 4]` the middle sum stays below `2^64`, the addition
is exact and the median is `3`. -/
theorem median_no_overflow_witness : u64add 2 4 = 2 + 4 ∧ median [2, 4] = 3 := by
  have h := median_no_overflow [2, 4] [2, 4] (by decide) (by decide) (by decide)
    (by decide) (by decide)
  constructor
  · simpa using h.1
  · simpa using h.2

/-- C9: the median is invariant under permuting the price list — reveal
order cannot change the aggregated result. -/
theorem median_perm_invariant (l l₂ : List ℕ) (h : l.Perm l₂) : median l = median l₂ := by
  have hs : sortAsc l = sortAsc l₂ :=
    List.eq_of_perm_of_sorted
      ((List.perm_insertionSort _ l).trans (h.trans (List.perm_insertionSort _ l₂).symm))
      (List.sorted_insertionSort _ l) (List.sorted_insertionSort _ l₂)
  simp [median, hs]

/-- C9 witness: a concrete shuffle of `[5, 1, 9]` has the same median. -/
theorem median_perm_invariant_witness : median [5, 1, 9] = median [9, 5, 1] :=
  median_perm_invariant [5, 1, 9] [9, 5, 1] (by decide)

/-! ### Claims about the tally phase (C3, C4, C10) -/

theorem tallyPrices_filter_valid (reveals : List (List ℕ)) :
    tallyPrices (reveals.filter fun r => (parseRevealPrice r).isSome) =
      tallyPrices reveals := by
  induction reveals with
  | nil => rfl
  | cons a t ih =>
    cases h : parseRevealPrice a with
    | none => simp [tallyPrices, List.filter_cons, List.filterMap_cons, h] at ih ⊢; exact ih
    | some v => simp [tallyPrices, List.filter_cons, List.filterMap_cons, h] at ih ⊢; exact ih

/-- C3: whenever the filtered set of valid prices is empty — in particular
for the empty reveal list — the tally phase reports the explicit
"No consensus among revealed results" error and never a success value. -/
theorem tally_empty_no_consensus (reveals : List (List ℕ))
    (h : tallyPrices reveals = []) :
    tally_phase reveals = HostOutcome.error noConsensusMsg ∧
    ∀ out, tally_phase reveals ≠ HostOutcome.success out := by
  have he : tally_phase reveals = HostOutcome.error noConsensusMsg := by
    simp [tally_phase, h]
  exact ⟨he, fun out => by simp [he]⟩

/-- C3 witness: a list with one non-UTF-8 reveal, and the empty reveal
list, both end in the explicit no-consensus error. -/
theorem tally_empty_no_consensus_witness :
    tally_phase [[0xFF]] = HostOutcome.error noConsensusMsg ∧
    tally_phase [] = HostOutcome.error noConsensusMsg :=
  ⟨(tally_empty_no_consensus [[0xFF]] (by decide)).1,
   (tally_empty_no_consensus [] rfl).1⟩

/-- C4: the tally outcome of any reveal list equals the outcome of the
same list with the invalid reveals removed — invalid entries are skipped,
never abort the phase, and never change the median. -/
theorem tally_skips_invalid (reveals : List (List ℕ)) :
    tally_phase reveals =
      tally_phase (reveals.filter fun r => (parseRevealPrice r).isSome) := by
  simp [tally_phase, tallyPrices_filter_valid]

theorem dropWhile_append_of_forall {p : ℕ → Bool} (l₁ l₂ : List ℕ)
    (h : ∀ c ∈ l₁, p c = true) :
    (l₁ ++ l₂).dropWhile p = l₂.dropWhile p := by
  induction l₁ with
  | nil => rfl
  | cons a t ih =>
    have ha : p a = true := h a (by simp)
    simp only [List.cons_append, List.dropWhile_cons, ha, if_true]
    exact ih fun c hc => h c (by simp [hc])

theorem dropWhile_of_head_false {p : ℕ → Bool} (a : ℕ) (l : List ℕ) (h : p a = false) :
    (a :: l).dropWhile p = a :: l := by
  simp [List.dropWhile_cons, h]

theorem isWhitespace_eq_false_of_isDigit {c : ℕ} (h : isDigit c = true) :
    isWhitespace c = false := by
  simp only [isDigit, Bool.and_eq_true, decide_eq_true_eq] at h
  simp only [isWhitespace, Bool.or_eq_false_iff, beq_eq_false_iff_ne, ne_eq]
  omega

theorem trim_ws_digits (ws1 ws2 ds : List ℕ)
    (hw1 : ∀ c ∈ ws1, isWhitespace c = true) (hw2 : ∀ c ∈ ws2, isWhitespace c = true)
    (hne : ds ≠ []) (hds : ∀ c ∈ ds, isDigit c = true) :
    trim (ws1 ++ ds ++ ws2) = ds := by
  obtain ⟨d, t, rfl⟩ := List.exists_cons_of_ne_nil hne
  have hstart : trimStart (ws1 ++ (d :: t) ++ ws2) = (d :: t) ++ ws2 := by
    rw [trimStart, List.append_assoc, dropWhile_append_of_forall _ _ hw1]
    exact dropWhile_of_head_false d (t ++ ws2)
      (isWhitespace_eq_false_of_isDigit (hds d (by simp)))
  rw [trim, hstart, trimEnd, List.reverse_append,
    dropWhile_append_of_forall _ _ (fun c hc => hw2 c (List.mem_reverse.mp hc))]
  cases hr : (d :: t).reverse with
  | nil => simp at hr
  | cons x xs =>
    have hx : x ∈ d :: t := by
      rw [← List.mem_reverse, hr]
      simp
    rw [dropWhile_of_head_false x xs (isWhitespace_eq_false_of_isDigit (hds x hx)),
      ← hr, List.reverse_reverse]

theorem parseU64_digits (ds : List ℕ) (hne : ds ≠ []) (hds : ∀ c ∈ ds, isDigit c = true)
    (hval : digitsVal ds < 2 ^ 64) : parseU64 ds = some (digitsVal ds) := by
  obtain ⟨d, t, rfl⟩ := List.exists_cons_of_ne_nil hne
  have hd : isDigit d = true := hds d (by simp)
  have hd43 : ¬ (d = 0x2B) := by
    simp only [isDigit, Bool.and_eq_true, decide_eq_true_eq] at hd
    omega
  have hall : (d :: t).all isDigit = true := List.all_eq_true.mpr hds
  simp [parseU64, hd43, hall]
  simpa using hval

/-- C10: a reveal whose body decodes (UTF-8) to a decimal `u64` numeral
surrounded by whitespace is accepted: the text is trimmed before parsing,
and the numeral's value enters the price list. -/
theorem tally_accepts_padded_numeral (body ws1 ws2 ds : List ℕ)
    (hdec : decodeUtf8 body = some (ws1 ++ ds ++ ws2))
    (hw1 : ∀ c ∈ ws1, isWhitespace c = true) (hw2 : ∀ c ∈ ws2, isWhitespace c = true)
    (hne : ds ≠ []) (hds : ∀ c ∈ ds, isDigit c = true)
    (hval : digitsVal ds < 2 ^ 64) :
    parseRevealPrice body = some (digitsVal ds) ∧
    tallyPrices [body] = [digitsVal ds] := by
  have h1 : parseRevealPrice body = some (digitsVal ds) := by
    rw [parseRevealPrice, hdec, Option.some_bind, trim_ws_digits ws1 ws2 ds hw1 hw2 hne hds]
    exact parseU64_digits ds hne hds hval
  exact ⟨h1, by simp [tallyPrices, h1]⟩

/-- C10 witness: the reveal body `" 42 "` (bytes `0x20 0x34 0x32 0x20`)
is accepted with value 42. -/
theorem tally_accepts_padded_numeral_witness :
    parseRevealPrice [0x20, 0x34, 0x32, 0x20] = some (digitsVal [0x34, 0x32]) ∧
    tallyPrices [[0x20, 0x34, 0x32, 0x20]] = [digitsVal [0x34, 0x32]] :=
  tally_accepts_padded_numeral [0x20, 0x34, 0x32, 0x20] [0x20] [0x20] [0x34, 0x32]
    (by decide) (by decide) (by decide) (by decide) (by decide) (by decide)

/-! ### Claims about the ABI encoder (C2) -/

theorem beBytes_length (k : ℕ) : ∀ n, (beBytes k n).length = k := by
  induction k with
  | zero => intro n; rfl
  | succ k ih => intro n; simp [beBytes, ih]

theorem beBytes_zero (k : ℕ) : beBytes k 0 = List.replicate k 0 := by
  induction k with
  | zero => rfl
  | succ k ih => rw [List.replicate_succ', beBytes, Nat.zero_div, ih, Nat.zero_mod]

theorem replicate_append_beBytes (j : ℕ) : ∀ k n, n < 256 ^ k →
    List.replicate j 0 ++ beBytes k n = beBytes (j + k) n := by
  intro k
  induction k generalizing j with
  | zero =>
    intro n h
    have : n = 0 := by omega
    subst this
    simp [beBytes, beBytes_zero]
  | succ k ih =>
    intro n h
    have hd : n / 256 < 256 ^ k := by
      rw [pow_succ] at h
      exact Nat.div_lt_of_lt_mul (by rwa [Nat.mul_comm] at h)
    calc List.replicate j 0 ++ beBytes (k + 1) n
        = (List.replicate j 0 ++ beBytes k (n / 256)) ++ [n % 256] := by
          simp [beBytes]
      _ = beBytes (j + k) (n / 256) ++ [n % 256] := by rw [ih j _ hd]
      _ = beBytes (j + (k + 1)) n := rfl

theorem abi_elems_length (ps : List ℕ) :
    ((ps.map (fun p => List.replicate 24 0 ++ beBytes 8 p)).flatten).length =
      32 * ps.length := by
  induction ps with
  | nil => rfl
  | cons a t ih =>
    rw [List.map_cons, List.flatten_cons, List.length_append, ih, List.length_append,
      List.length_replicate, beBytes_length, List.length_cons]
    omega

/-- C2 counterexample: the literal byte sequence the claim (and the code
comment it descends from) gives for `[105000, 895000]` is wrong arithmetic:
`0x0199a8 = 104872 ≠ 105000` and `0x0da948 = 895304 ≠ 895000`, so the
encoder does not produce those words. -/
theorem abi_encode_layout_cex :
    abi_encode [105000, 895000] ≠
      (List.replicate 31 0 ++ [0x20]) ++ (List.replicate 31 0 ++ [0x02]) ++
      (List.replicate 29 0 ++ [0x01, 0x99, 0xA8]) ++
      (List.replicate 29 0 ++ [0x0D, 0xA9, 0x48]) := by
  decide

/-- C2 (amended): encoding `[105000, 895000]` produces exactly the four
big-endian 32-byte words: offset `0x20`, count `2`, then `105000`
(hex `0x019a28`, not `0x0199a8`) and `895000` (hex `0x0da818`, not
`0x0da948`), each right-aligned; and for every list of `N` values below
`2^64` the encoding is `word[0] = 0x20`, `word[1] = N`, then the elements
in order, `32 * (2 + N)` bytes in total. -/
theorem abi_encode_layout :
    (abi_encode [105000, 895000] =
      (List.replicate 31 0 ++ [0x20]) ++ (List.replicate 31 0 ++ [0x02]) ++
      (List.replicate 29 0 ++ [0x01, 0x9A, 0x28]) ++
      (List.replicate 29 0 ++ [0x0D, 0xA8, 0x18])) ∧
    ∀ ps : List ℕ, (∀ p ∈ ps, p < 2 ^ 64) → ps.length < 2 ^ 64 →
      abi_encode ps = abiWord 0x20 ++ abiWord ps.length ++ (ps.map abiWord).flatten ∧
      (abi_encode ps).length = 32 * (2 + ps.length) := by
  constructor
  · decide
  · intro ps hb hlen
    have h64 : (2 : ℕ) ^ 64 = 256 ^ 8 := by norm_num
    have e1 : (List.replicate 31 0 ++ [0x20] : List ℕ) = abiWord 0x20 := by
      rw [show ([0x20] : List ℕ) = beBytes 1 0x20 from rfl]
      exact replicate_append_beBytes 31 1 0x20 (by norm_num)
    have e2 : List.replicate 24 0 ++ beBytes 8 ps.length = abiWord ps.length :=
      replicate_append_beBytes 24 8 ps.length (by rw [← h64]; exact hlen)
    have e3 : ps.map (fun p => List.replicate 24 0 ++ beBytes 8 p) = ps.map abiWord :=
      List.map_congr_left fun p hp =>
        replicate_append_beBytes 24 8 p (by rw [← h64]; exact hb p hp)
    constructor
    · rw [abi_encode, e1, e2, e3]
    · rw [abi_encode]
      simp only [List.length_append, List.length_replicate, List.length_cons,
        List.length_nil, beBytes_length, abi_elems_length]
      omega

/-- C2 witness: the general layout instantiated on the one-element list
`[7]`. -/
theorem abi_encode_layout_witness :
    abi_encode [7] = abiWord 0x20 ++ abiWord [7].length ++ ([7].map abiWord).flatten ∧
    (abi_encode [7]).length = 32 * (2 + [7].length) :=
  abi_encode_layout.2 [7] (by decide) (by decide)

/-! ### Claims about the execution phase (C6, C8) -/

/-- C6: whenever a hard failure occurs in the Observer — a non-2xx status,
a body that fails to deserialize to the expected `mid`-carrying shape, or a
`mid` string that fails numeric parse — the phase terminates in an explicit
failure (a `Process::error` signal or a normal `Err` return handed to the
host harness), and never in a success output. -/
theorem execution_fails_explicitly (jp : List ℕ → Option (List ℕ))
    (pf : List ℕ → Option ℚ) (env : ExecEnv)
    (h : responseOk env.httpStatus = false ∨ jp env.httpBody = none ∨
      ∃ m, jp env.httpBody = some m ∧ pf m = none) :
    (execution_phase jp pf env = HostOutcome.errReturn ∨
      ∃ msg, execution_phase jp pf env = HostOutcome.error msg) ∧
    ∀ out, execution_phase jp pf env ≠ HostOutcome.success out := by
  have hmain : execution_phase jp pf env = HostOutcome.errReturn ∨
      ∃ msg, execution_phase jp pf env = HostOutcome.error msg := by
    cases hi : decodeUtf8 env.inputs with
    | none => exact Or.inl (by simp [execution_phase, hi])
    | some s =>
      cases hok : responseOk env.httpStatus with
      | false =>
        cases hbody : decodeUtf8 env.httpBody with
        | none => exact Or.inl (by simp [execution_phase, hi, hok, hbody])
        | some b => exact Or.inr ⟨fetchErrMsg, by simp [execution_phase, hi, hok, hbody]⟩
      | true =>
        cases hjp : jp env.httpBody with
        | none => exact Or.inl (by simp [execution_phase, hi, hok, hjp])
        | some m =>
          rcases h with h | h | ⟨m₂, hm₂, hpf⟩
          · rw [hok] at h
            exact absurd h (by simp)
          · rw [hjp] at h
            exact absurd h (by simp)
          · rw [hjp] at hm₂
            have hm : m = m₂ := by injection hm₂
            exact Or.inr ⟨parseMidErrMsg,
              by simp [execution_phase, hi, hok, hjp, hm, hpf]⟩
  refine ⟨hmain, fun out hsucc => ?_⟩
  rcases hmain with he | ⟨msg, he⟩ <;> rw [he] at hsucc <;> exact HostOutcome.noConfusion hsucc

/-- C6 witness: with a 500 status (and parsers that always fail) the phase
reports failure and cannot succeed. -/
theorem execution_fails_explicitly_witness :
    (execution_phase (fun _ => none) (fun _ => none) ⟨[0x41], 500, []⟩ =
        HostOutcome.errReturn ∨
      ∃ msg, execution_phase (fun _ => none) (fun _ => none) ⟨[0x41], 500, []⟩ =
        HostOutcome.error msg) ∧
    ∀ out, execution_phase (fun _ => none) (fun _ => none) ⟨[0x41], 500, []⟩ ≠
      HostOutcome.success out :=
  execution_fails_explicitly (fun _ => none) (fun _ => none) ⟨[0x41], 500, []⟩
    (Or.inl (by decide))

/-- C8: for every parsed mid value, including negative ones, the scaled
output is a `u64` in `[0, 2^64 - 1]`; negative values are clamped to `0`
by the saturating cast, so the emitted NormalizedPrice is never negative. -/
theorem scaleMid_nonneg (v : ℚ) :
    (0 : Int) ≤ (scaleMid v : Int) ∧ scaleMid v ≤ 2 ^ 64 - 1 ∧
    (v < 0 → scaleMid v = 0) := by
  refine ⟨Int.natCast_nonneg _, ?_, ?_⟩
  · rw [scaleMid, satU64]
    split
    · omega
    · exact min_le_right _ _
  · intro hv
    have hq : v * 1000000 < 0 := mul_neg_of_neg_of_pos hv (by norm_num)
    have hr : rustRound (v * 1000000) ≤ 0 := by
      rw [rustRound, if_neg (not_le.mpr hq)]
      rw [show (0 : Int) = ((0 : Int) : Int) from rfl]
      refine Int.ceil_le.mpr ?_
      push_cast
      linarith
    rw [scaleMid, satU64]
    split
    · rfl
    · rename_i hnlt
      have hz : rustRound (v * 1000000) = 0 := le_antisymm hr (not_lt.mp hnlt)
      simp [hz]

/-- C8 witness: the negative mid value `-1/2` scales to `0`, within
`u64` range. -/
theorem scaleMid_nonneg_witness :
    (0 : Int) ≤ (scaleMid (-1 / 2) : Int) ∧ scaleMid (-1 / 2) ≤ 2 ^ 64 - 1 ∧
    scaleMid (-1 / 2) = 0 :=
  ⟨(scaleMid_nonneg (-1 / 2)).1, (scaleMid_nonneg (-1 / 2)).2.1,
   (scaleMid_nonneg (-1 / 2)).2.2 (by norm_num)⟩

end SedaFeed
